import Mathlib

/-!
Verification of the kodegen bundler against its specification.

Shallow embedding of the core routines of the bundler:
* `is_oom_failure` (src/cli/docker/oom_detector.rs),
* `calculate_directory_sha256` (src/bundler/builder/checksum.rs),
* `bundle_dylib_and_deps` and its driver (src/bundler/platform/macos/dylib.rs),
* `bundle_types` (src/bundler/builder/orchestrator.rs),
* `move_artifacts_to_final` (src/cli/docker/artifact_manager.rs),
* `run_container` (src/cli/docker/container_runner.rs).

Strings are modelled with Lean `String`, bytes with `Nat` (values < 256),
paths either as component lists (`List (List Nat)` of byte components for the
checksum engine, `List String` for the artifact manager) and fallible
operations with `Except` / `Option`.  Asynchronous loops that may suspend
forever are modelled with an explicit fuel argument: a result of `none` for
every fuel means the loop never finishes.
-/

namespace Bundler

/-! ## String helpers (models of Rust `str` operations)

Core `String` functions such as `String.map` or `String.trim` recurse on UTF-8
byte positions and do not reduce inside the kernel, so the Rust string
operations are modelled directly on the underlying character lists. -/

/-- Model of Rust slice-prefix test: `pat` is a prefix of `hay`. -/
def leadsChars : List Char → List Char → Bool
  | [], _ => true
  | _ :: _, [] => false
  | p :: ps, h :: hs => p = h && leadsChars ps hs

/-- Model of Rust `str::contains` for plain substrings: some suffix of `hay`
begins with `pat`. -/
def charsContain : List Char → List Char → Bool
  | hay, pat =>
    match hay with
    | [] => pat.isEmpty
    | _ :: t => leadsChars pat (hay) || charsContain t pat

/-- Model of Rust `str::contains` on `String`s. -/
def strContains (hay pat : String) : Bool :=
  charsContain hay.toList pat.toList

/-- Lowercase a single character (the phrase markers scanned for are ASCII,
where this agrees with Rust's Unicode lowercasing). -/
def lowerChar (c : Char) : Char :=
  if 65 ≤ c.toNat && c.toNat ≤ 90 then Char.ofNat (c.toNat + 32) else c

/-- Model of Rust `str::to_lowercase`. -/
def toLowerStr (s : String) : String :=
  ⟨s.data.map lowerChar⟩

/-- ASCII whitespace test (space, tab, line feed, carriage return). -/
def wsChar (c : Char) : Bool :=
  c.toNat = 32 || c.toNat = 9 || c.toNat = 10 || c.toNat = 13

/-- Model of Rust `str::trim`: drop whitespace from both ends. -/
def trimStr (s : String) : String :=
  ⟨((s.data.dropWhile wsChar).reverse.dropWhile wsChar).reverse⟩

/-- Model of `stderr_lines.join("\n")`. -/
def joinLinesGo (sep : List Char) : List (List Char) → List Char
  | [] => []
  | [l] => l
  | l :: ls => l ++ sep ++ joinLinesGo sep ls

/-- Model of Rust `[String]::join("\n")`. -/
def joinLines (lines : List String) : String :=
  ⟨joinLinesGo [Char.ofNat 10] (lines.map String.data)⟩

/-- Case-insensitive substring containment; this is the matching discipline the
claim attributes to the stderr scan ("matched case-insensitively"). -/
def containsCaseInsensitive (hay pat : String) : Bool :=
  strContains (toLowerStr hay) (toLowerStr pat)

/-! ## OOM detector (src/cli/docker/oom_detector.rs)

`OomDetector::is_oom_failure(exit_code, stderr_lines, container_name)`.
The Docker-inspect query `check_container_oom_status` is an external effect;
its result (after the code's `unwrap_or(false)`) is modelled by the boolean
argument `oomKilledFlag`: the container runtime's `OOMKilled` flag, `false`
when the query fails. -/

/-- Priority-1 stderr scan of `is_oom_failure`: the disjunction of the five
exact-case substring checks and the case-insensitive `"oom"` check, exactly as
in the source. -/
def oomStderrMarker (stderrStr : String) : Bool :=
  strContains stderrStr "OOMKilled"
    || strContains stderrStr "out of memory"
    || strContains stderrStr "Out of memory"
    || strContains stderrStr "OutOfMemoryError"
    || strContains stderrStr "Cannot allocate memory"
    || strContains (toLowerStr stderrStr) "oom"

/-- Priority-3 scan for explicit non-OOM kill markers (exit code 137 branch). -/
def nonOomKillMarker (stderrLower : String) : Bool :=
  strContains stderrLower "killed by user"
    || strContains stderrLower "sigkill"
    || strContains stderrLower "shutdown"
    || strContains stderrLower "terminated by signal"

/-- Model of `OomDetector::is_oom_failure`. -/
def is_oom_failure (exitCode : Int) (stderrLines : List String)
    (oomKilledFlag : Bool) : Bool :=
  let stderrStr := joinLines stderrLines
  if oomStderrMarker stderrStr then
    true
  else if oomKilledFlag then
    true
  else if exitCode = 137 then
    let stderrLower := toLowerStr stderrStr
    if nonOomKillMarker stderrLower then
      false
    else if (trimStr stderrStr).data.isEmpty then
      false
    else
      false
  else
    false

/-! ## SHA-256 (the `sha2` crate primitive used by the checksum engine)

Messages are byte lists (each entry < 256); the digest is the usual
lowercase-hex string of the eight 32-bit state words. -/

/-- Word size modulus for 32-bit arithmetic. -/
def w32 : Nat := 4294967296

/-- Right rotation of a 32-bit word. -/
def rotr32 (n x : Nat) : Nat :=
  (x >>> n) ||| ((x % (1 <<< n)) <<< (32 - n))

/-- Exclusive or of three words. -/
def xor3 (a b c : Nat) : Nat := a ^^^ (b ^^^ c)

/-- SHA-256 upper sigma functions (rotation triples (2,13,22) and
(6,11,25)). -/
def upperSigma (i j k x : Nat) : Nat := xor3 (rotr32 i x) (rotr32 j x) (rotr32 k x)

/-- SHA-256 lower sigma functions: two rotations and a shift. -/
def lowerSigma (i j k x : Nat) : Nat := xor3 (rotr32 i x) (rotr32 j x) (x >>> k)

/-- SHA-256 choice function. -/
def chF (x y z : Nat) : Nat := (x &&& y) ^^^ ((x ^^^ 4294967295) &&& z)

/-- SHA-256 majority function. -/
def majF (x y z : Nat) : Nat := (x &&& y) ^^^ ((x &&& z) ^^^ (y &&& z))

/-- The 64 SHA-256 round constants, in decimal. -/
def sha256K : List Nat :=
  [1116352408, 1899447441, 3049323471, 3921009573, 961987163,
   1508970993, 2453635748, 2870763221, 3624381080, 310598401,
   607225278, 1426881987, 1925078388, 2162078206, 2614888103,
   3248222580, 3835390401, 4022224774, 264347078, 604807628,
   770255983, 1249150122, 1555081692, 1996064986, 2554220882,
   2821834349, 2952996808, 3210313671, 3336571891, 3584528711,
   113926993, 338241895, 666307205, 773529912, 1294757372,
   1396182291, 1695183700, 1986661051, 2177026350, 2456956037,
   2730485921, 2820302411, 3259730800, 3345764771, 3516065817,
   3600352804, 4094571909, 275423344, 430227734, 506948616,
   659060556, 883997877, 958139571, 1322822218, 1537002063,
   1747873779, 1955562222, 2024104815, 2227730452, 2361852424,
   2428436474, 2756734187, 3204031479, 3329325298]

/-- The eight SHA-256 initial state words, in decimal. -/
def sha256H0 : List Nat :=
  [1779033703, 3144134277, 1013904242, 2773480762,
   1359893119, 2600822924, 528734635, 1541459225]

/-- Extends a 16-word message block by `n` further schedule words. -/
def extendSchedule : List Nat → Nat → List Nat
  | w, 0 => w
  | w, n + 1 =>
    let i := w.length
    extendSchedule
      (w ++ [(lowerSigma 17 19 10 (w.getD (i - 2) 0) + w.getD (i - 7) 0
              + lowerSigma 7 18 3 (w.getD (i - 15) 0) + w.getD (i - 16) 0) % w32]) n

/-- One SHA-256 compression round on the eight-word working state; `kw` is the
current round constant plus schedule word. -/
def sha256Round (st : List Nat) (kw : Nat) : List Nat :=
  match st with
  | [a, b, c, d, e, f, g, h] =>
    let t1 := (h + upperSigma 6 11 25 e + chF e f g + kw) % w32
    let t2 := (upperSigma 2 13 22 a + majF a b c) % w32
    [(t1 + t2) % w32, a, b, c, (d + t1) % w32, e, f, g]
  | st => st

/-- Compresses one 16-word block into the running state. -/
def processBlock (st : List Nat) (block : List Nat) : List Nat :=
  let w := extendSchedule block 48
  let kw := List.zipWith (fun k x => (k + x) % w32) sha256K w
  let st2 := kw.foldl sha256Round st
  List.zipWith (fun a b => (a + b) % w32) st st2

/-- Packs big-endian byte quadruples into 32-bit words. -/
def toWords : List Nat → List Nat
  | b0 :: b1 :: b2 :: b3 :: rest =>
    (((b0 * 256 + b1) * 256 + b2) * 256 + b3) :: toWords rest
  | _ => []

/-- Splits a padded message into 16-word blocks (fuel-indexed chunking). -/
def toBlocksGo : Nat → List Nat → List (List Nat)
  | 0, _ => []
  | _, [] => []
  | f + 1, l => toWords (l.take 64) :: toBlocksGo f (l.drop 64)

/-- Big-endian eight-byte encoding of the bit length. -/
def lenBytes (bits : Nat) : List Nat :=
  [(bits >>> 56) % 256, (bits >>> 48) % 256, (bits >>> 40) % 256,
   (bits >>> 32) % 256, (bits >>> 24) % 256, (bits >>> 16) % 256,
   (bits >>> 8) % 256, bits % 256]

/-- SHA-256 padding: `0x80`, zeros to 56 mod 64, then the bit length. -/
def padMessage (msg : List Nat) : List Nat :=
  let len := msg.length
  let k := (120 - ((len + 1) % 64)) % 64
  msg ++ 128 :: List.replicate k 0 ++ lenBytes (len * 8)

/-- SHA-256 state words of a byte-list message. -/
def sha256Words (msg : List Nat) : List Nat :=
  let padded := padMessage msg
  (toBlocksGo (padded.length + 1) padded).foldl processBlock sha256H0

/-- Lowercase hexadecimal digit. -/
def hexDigitChar (n : Nat) : Char :=
  Char.ofNat (if n < 10 then 48 + n else 87 + n)

/-- Eight lowercase hex digits of a 32-bit word. -/
def wordHex (x : Nat) : List Char :=
  [hexDigitChar ((x >>> 28) % 16), hexDigitChar ((x >>> 24) % 16),
   hexDigitChar ((x >>> 20) % 16), hexDigitChar ((x >>> 16) % 16),
   hexDigitChar ((x >>> 12) % 16), hexDigitChar ((x >>> 8) % 16),
   hexDigitChar ((x >>> 4) % 16), hexDigitChar (x % 16)]

/-- Hex digest of a byte-list message, as produced by `format!("{:x}", ...)`
on the finalized hasher. -/
def sha256hex (msg : List Nat) : String :=
  ⟨((sha256Words msg).map wordHex).flatten⟩

/-! ## Checksum engine (src/bundler/builder/checksum.rs)

`calculate_directory_sha256` walks the tree, keeps the regular files, sorts
the walkdir entries by their full `PathBuf` (component-wise comparison of
paths, components compared as byte strings — the derived `Ord` of Rust's
`PathBuf`), and feeds, per file, the bytes of the root-relative path (its
components joined by `'/'`, as `Path::to_string_lossy` renders it) followed by
the file's content bytes into one running SHA-256 hasher.

A regular file is modelled as its root-relative path — a list of components,
each a byte list — together with its content bytes; a directory tree is the
list of its files in filesystem-iteration order, and the root directory is
itself a component list prepended to every relative path. -/

/-- Strict lexicographic order on lists induced by a strict order `lt` on
elements: Rust's derived `Ord` on slices and `Vec`s. -/
def lexLt (lt : α → α → Bool) : List α → List α → Bool
  | _, [] => false
  | [], _ :: _ => true
  | a :: as, b :: bs => lt a b || (!lt a b && !lt b a && lexLt lt as bs)

/-- Byte-string comparison: Rust's `Ord` on `OsStr` (byte-lexicographic). -/
def bytesLt : List Nat → List Nat → Bool :=
  lexLt Nat.blt

/-- Path comparison: Rust's `Ord` on `PathBuf` — lexicographic on the
component list, components compared byte-lexicographically. -/
def pathLt : List (List Nat) → List (List Nat) → Bool :=
  lexLt bytesLt

/-- A regular file of a directory tree: root-relative path components (byte
lists) and content bytes. -/
structure DirFile where
  relPath : List (List Nat)
  content : List Nat
deriving DecidableEq

/-- Path components joined by `'/'` (byte 47): the bytes
`Path::to_string_lossy` yields for the relative path. -/
def relPathBytes : List (List Nat) → List Nat
  | [] => []
  | [c] => c
  | c :: cs => c ++ 47 :: relPathBytes cs

/-- Comparator used by `entries.sort_by_key(|e| e.path().to_path_buf())`:
non-strict comparison of the full (root-prefixed) paths. -/
def fullPathLe (root : List (List Nat)) (f g : DirFile) : Bool :=
  !(pathLt (root ++ g.relPath) (root ++ f.relPath))

/-- Stable sort by a boolean comparator, modelling Rust's stable
`sort_by_key` (Mathlib's insertion sort is structural, hence executable in
the kernel, and is a stable sort like Rust's). -/
def sortBy (le : α → α → Bool) (l : List α) : List α :=
  List.insertionSort (fun a b => le a b = true) l

/-- The walkdir entries sorted by full path. -/
def sortedEntries (root : List (List Nat)) (files : List DirFile) : List DirFile :=
  sortBy (fullPathLe root) files

/-- Bytes one file feeds into the running hasher: relative-path bytes, then
content bytes. -/
def fileHashBytes (f : DirFile) : List Nat :=
  relPathBytes f.relPath ++ f.content

/-- The byte stream `calculate_directory_sha256` feeds into its single
SHA-256 hasher. -/
def dirHashStream (root : List (List Nat)) (files : List DirFile) : List Nat :=
  ((sortedEntries root files).map fileHashBytes).flatten

/-- Model of `calculate_directory_sha256`: hex digest of the stream. -/
def calculate_directory_sha256 (root : List (List Nat)) (files : List DirFile) : String :=
  sha256hex (dirHashStream root files)

/-- Reference fold of claim C3, following the spec's words: sort the files by
byte-lexicographic order of their relative-path bytes (not by component-wise
path order), then hash relative-path bytes followed by content bytes. -/
def referenceByteLexDigest (files : List DirFile) : String :=
  sha256hex (((sortBy
      (fun f g => !(bytesLt (relPathBytes g.relPath) (relPathBytes f.relPath))) files).map
        fileHashBytes).flatten)

/-- Comparator on files by relative path only (component-wise). -/
def relPathLe (f g : DirFile) : Bool :=
  !(pathLt g.relPath f.relPath)

/-- Reference fold in component-wise relative-path order: the order the
source's full-path sort induces, independent of the root. -/
def referenceComponentwiseDigest (files : List DirFile) : String :=
  sha256hex (((sortBy relPathLe files).map fileHashBytes).flatten)

/-- Non-strict comparator induced by a strict one through a sort key. -/
def keyLe (lt : κ → κ → Bool) (key : α → κ) (f g : α) : Bool :=
  !(lt (key g) (key f))

/-! ## Dylib dependency closure engine (src/bundler/platform/macos/dylib.rs)

Libraries are identified by natural numbers standing for their absolute
paths.  `deps p` lists the *non-system* dependency references of library `p`
(the `is_system_dylib` filter has already removed system references, which are
never bundled): `some t` is a reference that `resolve_dylib_path` resolves to
library `t`, and `none` is a reference that `resolve_dylib_path` rejects
(missing on disk, relative, or an unresolvable wildcard).

`bundle_dylib_and_deps` is async-recursive in the source; here the recursion
is driven by an explicit fuel, with `none` meaning the fuel ran out — the
claims show enough fuel always exists.  A `Sum.inl p` argument is a call
`bundle_dylib_and_deps(p, frameworks_dir, processed)`; a `Sum.inr ds`
argument is the `for dep_path_str in non_system` loop over the remaining
dependency references, in which a failing `resolve_dylib_path` is skipped
(`if let Ok(dep_path) = ...`, dylib.rs:237). -/

/-- State of one closure run: the processed set (as its insertion list, most
recent first) and the log of libraries copied into `Contents/Frameworks/`, in
copy order. -/
structure DylibState where
  processed : List Nat
  copies : List Nat
deriving DecidableEq

/-- Model of `bundle_dylib_and_deps`: mark-before-recurse closure walk.  On
`.inl p`: a second encounter of `p` is a no-op; otherwise `p` is inserted
into the processed set, copied into Frameworks, and only then are `p`'s own
dependencies examined. -/
def bundle_dylib_and_deps (deps : Nat → List (Option Nat)) :
    Nat → Sum Nat (List (Option Nat)) → DylibState → Option DylibState
  | 0, _, _ => none
  | f + 1, .inl p, st =>
    if p ∈ st.processed then some st
    else bundle_dylib_and_deps deps f (.inr (deps p))
      ⟨p :: st.processed, st.copies ++ [p]⟩
  | _ + 1, .inr [], st => some st
  | f + 1, .inr (d :: ds), st =>
    match d with
    | none => bundle_dylib_and_deps deps f (.inr ds) st
    | some t =>
      match bundle_dylib_and_deps deps f (.inl t) st with
      | none => none
      | some st2 => bundle_dylib_and_deps deps f (.inr ds) st2

/-- Result of the per-binary driver loop. -/
inductive DylibRunResult where
  | fuelOut
  | resolveError
  | done (st : DylibState)
deriving DecidableEq

/-- Model of the per-binary loop of `bundle_dylib_dependencies`
(dylib.rs:69-71): each of the binary's own non-system dependency references
is resolved with `?` — an unresolvable reference is a hard error here — and
then bundled recursively. -/
def bundle_binary_dylibs (deps : Nat → List (Option Nat)) (fuel : Nat) :
    List (Option Nat) → DylibState → DylibRunResult
  | [], st => .done st
  | none :: _, _ => .resolveError
  | some t :: rest, st =>
    match bundle_dylib_and_deps deps fuel (.inl t) st with
    | none => .fuelOut
    | some st2 => bundle_binary_dylibs deps fuel rest st2

/-- Number of libraries in the universe `range n` not yet processed: the
termination measure of the closure walk. -/
def missingCount (n : Nat) (st : DylibState) : Nat :=
  ((List.range n).filter (fun q => !(decide (q ∈ st.processed)))).length

/-- The cyclic dependency graph A→B→A (A = 0, B = 1) of the spec's cycle
termination scenario. -/
def cycleDeps : Nat → List (Option Nat) :=
  fun p => if p = 0 then [some 1] else if p = 1 then [some 0] else []

/-- A graph where library 0 exists but its own dependency is unresolvable:
library 0's load table names a dependency that `resolve_dylib_path`
rejects. -/
def deepBrokenDeps : Nat → List (Option Nat) :=
  fun p => if p = 0 then [none] else []

/-! ## Orchestrator (src/bundler/builder/orchestrator.rs) -/

/-- Modelled from the spec: the closed package-type enumeration
{Deb, Rpm, AppImage, MacOsBundle, Dmg, Exe} (its defining declaration lives
under bundler/platform, outside the sources at hand; the orchestrator only
dispatches on it). -/
inductive PackageType where
  | deb
  | rpm
  | appImage
  | macOsBundle
  | dmg
  | exe
deriving DecidableEq

/-- Debug-format name of a package type (Rust `{:?}`). -/
def ptName : PackageType → String
  | .deb => "Deb"
  | .rpm => "Rpm"
  | .appImage => "AppImage"
  | .macOsBundle => "MacOsBundle"
  | .dmg => "Dmg"
  | .exe => "Exe"

/-- Bundler error values reaching `bundle_types`: `genericError` is
`Error::GenericError` (what `bail!` constructs), `ioError` stands for the
context-wrapped filesystem errors of `fs_context`. -/
inductive BError where
  | genericError (msg : String)
  | ioError (context : String)
deriving DecidableEq

/-- Artifact record assembled by the orchestrator (one per package type). -/
structure BundledArtifact where
  package_type : PackageType
  paths : List String
  size : Nat
  checksum : String
deriving DecidableEq

/-- The `bail!` message for a producer that returned success with no paths. -/
def bugMessage (t : PackageType) : String :=
  "Platform bundler for " ++ ptName t
    ++ " returned no paths - this indicates a bundler bug"

deriving instance DecidableEq for Except

/-- Discriminator for `Except` results. -/
def isOkE : Except ε α → Bool
  | .ok _ => true
  | .error _ => false

/-- Metadata loop of `bundle_types`: stat every returned path in order
(`tokio::fs::metadata` with `fs_context`, modelled by `stat`) and sum the
sizes, propagating the first failure. -/
def sumSizes (stat : String → Except BError Nat) : List String → Except BError Nat
  | [] => .ok 0
  | p :: ps =>
    match stat p with
    | .error e => .error e
    | .ok sz =>
      match sumSizes stat ps with
      | .error e => .error e
      | .ok rest => .ok (sz + rest)

/-- One iteration of the `for package_type in types` loop of
`Bundler::bundle_types`: invoke the platform producer for the type, stat
every returned path and sum the sizes, then checksum the first path
(`calculate_sha256`, modelled by `digest`), or fail with the distinct
"bundler bug" error when the producer returned an empty path list. -/
def bundle_type_step (producer : PackageType → Except BError (List String))
    (stat : String → Except BError Nat)
    (digest : String → Except BError String)
    (t : PackageType) : Except BError BundledArtifact :=
  match producer t with
  | .error e => .error e
  | .ok paths =>
    match sumSizes stat paths with
    | .error e => .error e
    | .ok size =>
      match paths with
      | [] => .error (.genericError (bugMessage t))
      | first :: _ =>
        match digest first with
        | .error e => .error e
        | .ok checksum => .ok ⟨t, paths, size, checksum⟩

/-- Model of `Bundler::bundle_types`: process the requested types in order,
appending one artifact per type and aborting the whole run on the first
failure. -/
def bundle_types (producer : PackageType → Except BError (List String))
    (stat : String → Except BError Nat)
    (digest : String → Except BError String) :
    List PackageType → Except BError (List BundledArtifact)
  | [] => .ok []
  | t :: ts =>
    match bundle_type_step producer stat digest t with
    | .error e => .error e
    | .ok a =>
      match bundle_types producer stat digest ts with
      | .error e => .error e
      | .ok arts => .ok (a :: arts)

/-- Sample producer for concrete instantiations: Deb produces one path, Rpm
fails, AppImage reports success with an empty path list. -/
def sampleProducer : PackageType → Except BError (List String)
  | .deb => .ok ["out.deb"]
  | .rpm => .error (.genericError "rpmbuild failed")
  | .appImage => .ok []
  | _ => .ok ["other.bin"]

/-- Sample stat: every path exists with size 2048. -/
def sampleStat : String → Except BError Nat := fun _ => .ok 2048

/-- Sample digest function. -/
def sampleDigest : String → Except BError String := fun _ => .ok "abc123"

/-! ## Artifact relocation (src/cli/docker/artifact_manager.rs)

`move_artifacts_to_final` renames the temporary per-run bundle directory to
the final bundle location.  The filesystem fragment involved is modelled as
the list of its regular files: absolute path (component list) paired with
content bytes.  Paths of interest: `tempBundleDir` =
`<temp_target_dir>/release/bundle/<platform>`, `finalBundleDir` =
`<workspace>/target/release/bundle/<platform>`. -/

/-- The regular files of a filesystem fragment: path components with content
bytes. -/
abbrev FileSys := List (List String × List Nat)

/-- Component-prefix test: `dir` is an ancestor (prefix) of `path`. -/
def dirLeads : List String → List String → Bool
  | [], _ => true
  | _ :: _, [] => false
  | d :: ds, p :: ps => d = p && dirLeads ds ps

/-- A directory exists here exactly when some file lies under it (the model
has no empty directories). -/
def dirOnDisk (fs : FileSys) (dir : List String) : Bool :=
  fs.any (fun e => dirLeads dir e.1)

/-- Relocation of one path from under `src` to under `dst`. -/
def relocatePath (src dst p : List String) : List String :=
  dst ++ p.drop src.length

/-- Rename with replace, the semantics the source documents for the unix
branch ("rename() atomically replaces target",
artifact_manager.rs:283-300): the destination subtree is replaced by the
relocated source subtree in one step; fails when the source is missing. -/
def renameReplace (src dst : List String) (fs : FileSys) : Option FileSys :=
  if dirOnDisk fs src then
    some ((fs.filter (fun e => !(dirLeads src e.1) && !(dirLeads dst e.1)))
      ++ (fs.filter (fun e => dirLeads src e.1)).map
          (fun e => (relocatePath src dst e.1, e.2)))
  else none

/-- Model of `tokio::fs::remove_dir_all`. -/
def removeDirAll (dir : List String) (fs : FileSys) : FileSys :=
  fs.filter (fun e => !(dirLeads dir e.1))

/-- Windows rename: fails if the destination still exists, otherwise moves
the subtree. -/
def renameNoReplace (src dst : List String) (fs : FileSys) : Option FileSys :=
  if dirOnDisk fs dst then none
  else renameReplace src dst fs

/-- Modelled from the spec: `verify_artifacts` (cli/docker/artifacts.rs is
not among the sources at hand) re-verifies the success-implies-existence
contract at the final hand-off boundary — every artifact path must still
exist before the move. -/
def verify_artifacts (artifacts : List (List String)) (fs : FileSys) : Bool :=
  artifacts.all (fun p => fs.any (fun e => e.1 = p))

/-- Model of `ArtifactManager::move_artifacts_to_final`: verify the
artifacts, then relocate the temporary bundle directory onto the final one —
with a single replacing rename on unix (`atomicReplace = true`), and with
removal of a stale destination followed by a non-replacing rename on windows
(`atomicReplace = false`). -/
def move_artifacts_to_final (atomicReplace : Bool) (artifacts : List (List String))
    (tempBundleDir finalBundleDir : List String) (fs : FileSys) : Option FileSys :=
  if !(verify_artifacts artifacts fs) then none
  else if atomicReplace then
    renameReplace tempBundleDir finalBundleDir fs
  else
    let fs1 := if dirOnDisk fs finalBundleDir then removeDirAll finalBundleDir fs else fs
    renameNoReplace tempBundleDir finalBundleDir fs1

/-! ## Container runner (src/cli/docker/container_runner.rs)

`run_container` spawns `docker run` with both pipes captured, drains stdout
and stderr concurrently until each closes (`tokio::join!` — no timeout
governs this phase), then awaits the exit status under the 20-minute
`DOCKER_RUN_TIMEOUT`; on expiry it kills the child, waits up to 10 seconds
for the exit, and returns a distinct timed-out error. -/

/-- One piped output stream of the child: the lines it will produce and
whether it then closes (EOF).  A stream that never closes leaves
`lines.next_line().await` pending forever. -/
structure PipeStream where
  lines : List String
  closes : Bool
deriving DecidableEq

/-- Behaviour of the spawned child: its two streams, and `waitOutcome` —
`some code` when `child.wait()` completes within the 20-minute timeout with
that exit code, `none` when the timeout elapses first. -/
structure ChildBehavior where
  stdout : PipeStream
  stderr : PipeStream
  waitOutcome : Option Int
deriving DecidableEq

/-- Grace period the timeout branch waits for the killed child, seconds. -/
def GRACE_WAIT_SECS : Nat := 10

/-- Leading line of the distinct timed-out error message. -/
def timeoutMessage : String := "Docker bundling timed out after 20 minutes"

/-- Fuel-indexed model of the drain loop
`while let Ok(Some(line)) = lines.next_line().await`: one fuel per step;
`none` means the loop has not finished within the supplied bound — for a
stream that never closes it pends at every bound. -/
def drainStream : Nat → List String → Bool → List String → Option (List String)
  | 0, _, _, _ => none
  | _ + 1, [], closes, acc => if closes then some acc.reverse else none
  | f + 1, l :: ls, closes, acc => drainStream f ls closes (l :: acc)

/-- Observable result of a `run_container` call that returned. -/
inductive RunContainerResult where
  | completed (exitCode : Int) (stderrLines : List String)
  | timedOut (killSent : Bool) (graceWaitSecs : Nat) (message : String)
deriving DecidableEq

/-- Model of `ContainerRunner::run_container` after the spawn: drain both
streams to EOF (unbounded), then dispatch on the timed wait; on timeout the
child is killed, the bounded grace wait is performed and the distinct
timed-out error is returned.  `none` models a call that has not returned
within the supplied bound. -/
def run_container (fuel : Nat) (child : ChildBehavior) : Option RunContainerResult :=
  match drainStream fuel child.stdout.lines child.stdout.closes [],
        drainStream fuel child.stderr.lines child.stderr.closes [] with
  | some _, some errLines =>
    match child.waitOutcome with
    | some code => some (.completed code errLines)
    | none => some (.timedOut true GRACE_WAIT_SECS timeoutMessage)
  | _, _ => none

/-! ## Theorems -/

section LexOrder

variable {α : Type _} {lt : α → α → Bool}

theorem lexLt_cons_cons (lt : α → α → Bool) (x y : α) (xs ys : List α) :
    lexLt lt (x :: xs) (y :: ys)
      = (lt x y || (!lt x y && !lt y x && lexLt lt xs ys)) := rfl

theorem lexLt_asymm (hA : ∀ a b, lt a b = true → lt b a = true → False) :
    ∀ a b, lexLt lt a b = true → lexLt lt b a = true → False := by
  intro a
  induction a with
  | nil => intro b h1 h2; cases b <;> simp [lexLt] at h1 h2
  | cons x xs ih =>
    intro b h1 h2
    cases b with
    | nil => simp [lexLt] at h1
    | cons y ys =>
      rw [lexLt_cons_cons] at h1 h2
      rcases hxy : lt x y with h' | h' <;> rcases hyx : lt y x with h'' | h'' <;>
        simp [hxy, hyx] at h1 h2
      · exact ih ys h1 h2
      · exact hA x y hxy hyx

theorem lexLt_conn (hC : ∀ a b, lt a b = false → lt b a = false → a = b) :
    ∀ a b, lexLt lt a b = false → lexLt lt b a = false → a = b := by
  intro a
  induction a with
  | nil =>
    intro b h1 _
    cases b with
    | nil => rfl
    | cons y ys => simp [lexLt] at h1
  | cons x xs ih =>
    intro b h1 h2
    cases b with
    | nil => simp [lexLt] at h2
    | cons y ys =>
      rw [lexLt_cons_cons] at h1 h2
      rcases hxy : lt x y with h' | h' <;> rcases hyx : lt y x with h'' | h'' <;>
        simp [hxy, hyx] at h1 h2
      · rw [hC x y hxy hyx, ih ys h1 h2]

theorem lexLt_trans (hA : ∀ a b, lt a b = true → lt b a = true → False)
    (hC : ∀ a b, lt a b = false → lt b a = false → a = b)
    (hT : ∀ a b c, lt a b = true → lt b c = true → lt a c = true) :
    ∀ a b c, lexLt lt a b = true → lexLt lt b c = true → lexLt lt a c = true := by
  intro a
  induction a with
  | nil =>
    intro b c h1 h2
    cases b with
    | nil => simp [lexLt] at h1
    | cons y ys => cases c with
      | nil => simp [lexLt] at h2
      | cons z zs => simp [lexLt]
  | cons x xs ih =>
    intro b c h1 h2
    cases b with
    | nil => simp [lexLt] at h1
    | cons y ys =>
      cases c with
      | nil => simp [lexLt] at h2
      | cons z zs =>
        rw [lexLt_cons_cons] at h1 h2 ⊢
        rcases hxy : lt x y with h' | h' <;> rcases hyx : lt y x with h'' | h'' <;>
          simp [hxy, hyx] at h1
        · -- heads x, y are equal
          have hx : x = y := hC x y hxy hyx
          subst hx
          rcases hxz : lt x z with h3 | h3 <;> rcases hzx : lt z x with h4 | h4 <;>
            simp [hxz, hzx] at h2 ⊢
          · exact ih ys zs h1 h2
        · -- lt x y holds
          rcases hyz : lt y z with h3 | h3 <;> rcases hzy : lt z y with h4 | h4 <;>
            simp [hyz, hzy] at h2
          · have hy : y = z := hC y z hyz hzy
            subst hy
            simp [hxy]
          · simp [hT x y z hxy hyz]
          · exact (hA y z hyz hzy).elim
        · exact (hA x y hxy hyx).elim

theorem lt_self_eq_false (hA : ∀ a b, lt a b = true → lt b a = true → False)
    (a : α) : lt a a = false := by
  cases h : lt a a
  · rfl
  · exact (hA a a h h).elim

theorem lexLt_append_left (hA : ∀ a b, lt a b = true → lt b a = true → False)
    (r a b : List α) : lexLt lt (r ++ a) (r ++ b) = lexLt lt a b := by
  induction r with
  | nil => rfl
  | cons x rs ih =>
    have hx : lt x x = false := lt_self_eq_false hA x
    show lexLt lt (x :: (rs ++ a)) (x :: (rs ++ b)) = lexLt lt a b
    rw [lexLt_cons_cons, hx, ih]
    simp

end LexOrder

section ByteOrders

theorem blt_asymm : ∀ a b : Nat, a.blt b = true → b.blt a = true → False := by
  intro a b h1 h2
  rw [Nat.blt_eq] at h1 h2
  omega

theorem blt_conn : ∀ a b : Nat, a.blt b = false → b.blt a = false → a = b := by
  intro a b h1 h2
  rw [Bool.eq_false_iff] at h1 h2
  rw [Ne, Nat.blt_eq] at h1 h2
  omega

theorem blt_trans : ∀ a b c : Nat, a.blt b = true → b.blt c = true → a.blt c = true := by
  intro a b c h1 h2
  rw [Nat.blt_eq] at h1 h2 ⊢
  omega

theorem bytesLt_asymm : ∀ a b, bytesLt a b = true → bytesLt b a = true → False :=
  lexLt_asymm blt_asymm

theorem bytesLt_conn : ∀ a b, bytesLt a b = false → bytesLt b a = false → a = b :=
  lexLt_conn blt_conn

theorem bytesLt_trans :
    ∀ a b c, bytesLt a b = true → bytesLt b c = true → bytesLt a c = true :=
  lexLt_trans blt_asymm blt_conn blt_trans

theorem pathLt_asymm : ∀ a b, pathLt a b = true → pathLt b a = true → False :=
  lexLt_asymm bytesLt_asymm

theorem pathLt_conn : ∀ a b, pathLt a b = false → pathLt b a = false → a = b :=
  lexLt_conn bytesLt_conn

theorem pathLt_trans :
    ∀ a b c, pathLt a b = true → pathLt b c = true → pathLt a c = true :=
  lexLt_trans bytesLt_asymm bytesLt_conn bytesLt_trans

theorem pathLt_append_left (r a b : List (List Nat)) :
    pathLt (r ++ a) (r ++ b) = pathLt a b :=
  lexLt_append_left bytesLt_asymm r a b

end ByteOrders

section SortEquality

variable {α : Type _} {κ : Type _}

theorem keyLe_total (lt : κ → κ → Bool) (key : α → κ)
    (hA : ∀ a b, lt a b = true → lt b a = true → False) (f g : α) :
    (keyLe lt key f g || keyLe lt key g f) = true := by
  unfold keyLe
  cases h1 : lt (key g) (key f) <;> cases h2 : lt (key f) (key g) <;> simp
  exact hA _ _ h1 h2

theorem keyLe_trans (lt : κ → κ → Bool) (key : α → κ)
    (hC : ∀ a b, lt a b = false → lt b a = false → a = b)
    (hT : ∀ a b c, lt a b = true → lt b c = true → lt a c = true)
    (f g h : α) :
    keyLe lt key f g = true → keyLe lt key g h = true → keyLe lt key f h = true := by
  unfold keyLe
  intro h1 h2
  rw [Bool.not_eq_true'] at h1 h2 ⊢
  cases h3 : lt (key h) (key f)
  · rfl
  · exfalso
    cases h4 : lt (key g) (key h)
    · have hgh : key h = key g := hC _ _ h2 h4
      rw [hgh] at h3
      rw [h3] at h1
      cases h1
    · have h5 := hT _ _ _ h4 h3
      rw [h5] at h1
      cases h1

theorem keyLe_key_eq (lt : κ → κ → Bool) (key : α → κ)
    (hC : ∀ a b, lt a b = false → lt b a = false → a = b) (f g : α) :
    keyLe lt key f g = true → keyLe lt key g f = true → key f = key g := by
  unfold keyLe
  intro h1 h2
  rw [Bool.not_eq_true'] at h1 h2
  exact (hC _ _ h1 h2).symm

theorem sortBy_perm (le : α → α → Bool) (l : List α) : (sortBy le l).Perm l :=
  List.perm_insertionSort _ l

theorem sortBy_pairwise (le : α → α → Bool)
    (hTot : ∀ a b, (le a b || le b a) = true)
    (hTrans : ∀ a b c, le a b = true → le b c = true → le a c = true)
    (l : List α) : (sortBy le l).Pairwise (fun a b => le a b = true) := by
  letI : IsTotal α (fun a b => le a b = true) := by
    constructor
    intro a b
    have h := hTot a b
    rw [Bool.or_eq_true] at h
    exact h
  letI : IsTrans α (fun a b => le a b = true) := ⟨hTrans⟩
  exact List.sorted_insertionSort _ l

/-- Two sorted permutations of each other whose sort keys are duplicate-free
are equal: the sorted order of a file list is determined by the key multiset. -/
theorem eq_of_perm_of_pairwise_keyed (le : α → α → Bool) (key : α → κ)
    (hkey : ∀ a b, le a b = true → le b a = true → key a = key b) :
    ∀ l₁ l₂ : List α, l₁.Perm l₂ → l₁.Pairwise (fun a b => le a b = true) →
      l₂.Pairwise (fun a b => le a b = true) → (l₁.map key).Nodup → l₁ = l₂ := by
  intro l₁
  induction l₁ with
  | nil =>
    intro l₂ hp _ _ _
    exact (List.Perm.nil_eq hp)
  | cons a t₁ ih =>
    intro l₂ hp hs₁ hs₂ hnd
    cases l₂ with
    | nil => exact absurd (List.Perm.eq_nil hp) (by simp)
    | cons b t₂ =>
      have hs₁' := List.pairwise_cons.mp hs₁
      have hs₂' := List.pairwise_cons.mp hs₂
      have hnd' : key a ∉ t₁.map key ∧ (t₁.map key).Nodup := by
        rw [List.map_cons, List.nodup_cons] at hnd
        exact hnd
      have hab : a = b := by
        by_contra hne
        have ha2 : a ∈ t₂ := by
          have : a ∈ b :: t₂ := hp.mem_iff.mp (List.mem_cons_self a t₁)
          rcases List.mem_cons.mp this with h | h
          · exact absurd h hne
          · exact h
        have hb1 : b ∈ t₁ := by
          have : b ∈ a :: t₁ := hp.symm.mem_iff.mp (List.mem_cons_self b t₂)
          rcases List.mem_cons.mp this with h | h
          · exact absurd h.symm hne
          · exact h
        have h1 : le a b = true := hs₁'.1 b hb1
        have h2 : le b a = true := hs₂'.1 a ha2
        have hk : key a = key b := hkey a b h1 h2
        have : key b ∈ t₁.map key := List.mem_map_of_mem key hb1
        rw [← hk] at this
        exact hnd'.1 this
      subst hab
      have ht : t₁.Perm t₂ := hp.cons_inv
      rw [ih t₂ ht hs₁'.2 hs₂'.2 hnd'.2]

/-- Sorting either of two permuted lists with the same key-comparator yields
the same list when the keys are duplicate-free. -/
theorem sortBy_eq_of_perm (lt : κ → κ → Bool) (key : α → κ)
    (hA : ∀ a b, lt a b = true → lt b a = true → False)
    (hC : ∀ a b, lt a b = false → lt b a = false → a = b)
    (hT : ∀ a b c, lt a b = true → lt b c = true → lt a c = true)
    (l₁ l₂ : List α) (hp : l₁.Perm l₂) (hnd : (l₁.map key).Nodup) :
    sortBy (keyLe lt key) l₁ = sortBy (keyLe lt key) l₂ := by
  refine eq_of_perm_of_pairwise_keyed (keyLe lt key) key
    (keyLe_key_eq lt key hC) _ _
    (((sortBy_perm _ l₁).trans hp).trans (sortBy_perm _ l₂).symm)
    (sortBy_pairwise _ (keyLe_total lt key hA) (keyLe_trans lt key hC hT) l₁)
    (sortBy_pairwise _ (keyLe_total lt key hA) (keyLe_trans lt key hC hT) l₂)
    ?_
  exact (List.Perm.nodup_iff ((sortBy_perm _ l₁).map key)).mpr hnd

end SortEquality

theorem fullPathLe_eq_relPathLe (root : List (List Nat)) :
    fullPathLe root = relPathLe := by
  funext f g
  unfold fullPathLe relPathLe
  rw [pathLt_append_left]

/-- C2: for every directory tree and every byte-identical copy of it rooted
elsewhere (same relative paths and contents, filesystem enumeration in any
order), `calculate_directory_sha256` returns the same hex digest: the digest
does not depend on the root location or on filesystem iteration order. -/
theorem calculate_directory_sha256_deterministic
    (root₁ root₂ : List (List Nat)) (files₁ files₂ : List DirFile)
    (hcopy : files₁.Perm files₂)
    (hnd : (files₁.map DirFile.relPath).Nodup) :
    calculate_directory_sha256 root₁ files₁ = calculate_directory_sha256 root₂ files₂ := by
  unfold calculate_directory_sha256 dirHashStream sortedEntries
  rw [fullPathLe_eq_relPathLe root₁, fullPathLe_eq_relPathLe root₂]
  have hs : sortBy relPathLe files₁ = sortBy relPathLe files₂ :=
    sortBy_eq_of_perm pathLt DirFile.relPath pathLt_asymm pathLt_conn pathLt_trans
      files₁ files₂ hcopy hnd
  rw [hs]

/-- Witness for C2: a two-file tree hashed at root "t", and its copy at root
"u/v" enumerated in the opposite order, yield equal digests. -/
theorem calculate_directory_sha256_deterministic_witness :
    ([⟨[[97], [120]], [48]⟩, ⟨[[98]], [49]⟩] : List DirFile).Perm
        [⟨[[98]], [49]⟩, ⟨[[97], [120]], [48]⟩] ∧
    (([⟨[[97], [120]], [48]⟩, ⟨[[98]], [49]⟩] : List DirFile).map DirFile.relPath).Nodup ∧
    calculate_directory_sha256 [[116]] [⟨[[97], [120]], [48]⟩, ⟨[[98]], [49]⟩]
      = calculate_directory_sha256 [[117], [118]] [⟨[[98]], [49]⟩, ⟨[[97], [120]], [48]⟩] :=
  ⟨by decide, by decide,
    calculate_directory_sha256_deterministic _ _ _ _ (by decide) (by decide)⟩

/-- C3 counterexample: the claim says the files are fed in byte-lexicographic
order of their relative paths.  The source sorts by the full `PathBuf`, i.e.
component-wise: for the tree with files "a/x" (content "0") and "a-b/x"
(content "1") the two orders differ — byte-wise "a-b/x" < "a/x" (0x2d < 0x2f)
but component-wise ["a","x"] < ["a-b","x"] — and the digests differ. -/
theorem calculate_directory_sha256_ne_byte_lex_reference :
    calculate_directory_sha256 [] [⟨[[97], [120]], [48]⟩, ⟨[[97, 45, 98], [120]], [49]⟩]
      ≠ referenceByteLexDigest [⟨[[97], [120]], [48]⟩, ⟨[[97, 45, 98], [120]], [49]⟩] := by
  decide

/-- C3 (amended): `calculate_directory_sha256` equals the reference fold that
enumerates exactly the regular files, sorts them by *component-wise*
lexicographic order of their root-relative paths (components compared
byte-lexicographically — the order induced by sorting the full paths), and
feeds, for each file in that order, its relative-path bytes followed by its
content bytes into one running SHA-256 hash. -/
theorem calculate_directory_sha256_componentwise_fold
    (root : List (List Nat)) (files : List DirFile) :
    calculate_directory_sha256 root files = referenceComponentwiseDigest files := by
  unfold calculate_directory_sha256 dirHashStream sortedEntries referenceComponentwiseDigest
  rw [fullPathLe_eq_relPathLe root]

section DylibLemmas

theorem length_filter_mono {α : Type _} (p1 p2 : α → Bool)
    (h : ∀ a, p2 a = true → p1 a = true) :
    ∀ l : List α, (l.filter p2).length ≤ (l.filter p1).length := by
  intro l
  induction l with
  | nil => simp
  | cons a t ih =>
    cases h2 : p2 a
    · cases h1 : p1 a <;> simp [List.filter_cons, h1, h2] <;> omega
    · have h1 : p1 a = true := h a h2
      simp [List.filter_cons, h1, h2]
      omega

theorem length_filter_lt {α : Type _} (p1 p2 : α → Bool)
    (h : ∀ a, p2 a = true → p1 a = true)
    (x : α) (hx1 : p1 x = true) (hx2 : p2 x = false) :
    ∀ l : List α, x ∈ l → (l.filter p2).length < (l.filter p1).length := by
  intro l
  induction l with
  | nil => intro hmem; simp at hmem
  | cons a t ih =>
    intro hmem
    rcases List.mem_cons.mp hmem with rfl | hmem'
    · simp [List.filter_cons, hx1, hx2]
      have := length_filter_mono p1 p2 h t
      omega
    · cases h2 : p2 a
      · cases h1 : p1 a <;> simp [List.filter_cons, h1, h2] <;>
          have := ih hmem' <;> omega
      · have h1 : p1 a = true := h a h2
        simp [List.filter_cons, h1, h2]
        have := ih hmem'
        omega

theorem missingCount_le_of_processed_le (n : Nat) (st st' : DylibState)
    (h : ∀ q, q ∈ st.processed → q ∈ st'.processed) :
    missingCount n st' ≤ missingCount n st := by
  unfold missingCount
  refine length_filter_mono _ _ ?_ (List.range n)
  intro a ha
  rw [Bool.not_eq_true', decide_eq_false_iff_not] at ha ⊢
  intro hmem
  exact ha (h a hmem)

theorem missingCount_insert_lt (n p : Nat) (st : DylibState) (c : List Nat)
    (hp : p < n) (hmem : p ∉ st.processed) :
    missingCount n ⟨p :: st.processed, c⟩ < missingCount n st := by
  unfold missingCount
  refine length_filter_lt _ _ ?_ p ?_ ?_ (List.range n) (List.mem_range.mpr hp)
  · intro a ha
    rw [Bool.not_eq_true', decide_eq_false_iff_not] at ha ⊢
    intro hmem'
    exact ha (List.mem_cons_of_mem p hmem')
  · rw [Bool.not_eq_true', decide_eq_false_iff_not]
    exact hmem
  · rw [Bool.not_eq_false', decide_eq_true_iff]
    exact List.mem_cons_self p st.processed

theorem bundle_dylib_and_deps_processed_mono (deps : Nat → List (Option Nat)) :
    ∀ (f : Nat) (arg : Sum Nat (List (Option Nat))) (st st' : DylibState),
      bundle_dylib_and_deps deps f arg st = some st' →
      ∀ q, q ∈ st.processed → q ∈ st'.processed := by
  intro f
  induction f with
  | zero =>
    intro arg st st' h
    simp [bundle_dylib_and_deps] at h
  | succ f ih =>
    intro arg st st' h q hq
    match arg with
    | .inl p =>
      rw [show bundle_dylib_and_deps deps (f + 1) (.inl p) st
          = if p ∈ st.processed then some st
            else bundle_dylib_and_deps deps f (.inr (deps p))
              ⟨p :: st.processed, st.copies ++ [p]⟩ from rfl] at h
      split at h
      · cases h; exact hq
      · exact ih _ _ _ h q (List.mem_cons_of_mem p hq)
    | .inr [] =>
      cases h; exact hq
    | .inr (none :: ds) =>
      exact ih _ _ _ h q hq
    | .inr (some t :: ds) =>
      rw [show bundle_dylib_and_deps deps (f + 1) (.inr (some t :: ds)) st
          = (match bundle_dylib_and_deps deps f (.inl t) st with
             | none => none
             | some st2 => bundle_dylib_and_deps deps f (.inr ds) st2) from rfl] at h
      cases hc : bundle_dylib_and_deps deps f (.inl t) st with
      | none => rw [hc] at h; cases h
      | some st2 =>
        rw [hc] at h
        exact ih _ _ _ h q (ih _ _ _ hc q hq)

theorem bundle_dylib_and_deps_copies_inv (deps : Nat → List (Option Nat)) :
    ∀ (f : Nat) (arg : Sum Nat (List (Option Nat))) (st st' : DylibState),
      bundle_dylib_and_deps deps f arg st = some st' →
      ∃ new, st'.copies = st.copies ++ new
        ∧ st'.processed = new.reverse ++ st.processed
        ∧ (st.processed.Nodup → st'.processed.Nodup) := by
  intro f
  induction f with
  | zero =>
    intro arg st st' h
    simp [bundle_dylib_and_deps] at h
  | succ f ih =>
    intro arg st st' h
    match arg with
    | .inl p =>
      rw [show bundle_dylib_and_deps deps (f + 1) (.inl p) st
          = if p ∈ st.processed then some st
            else bundle_dylib_and_deps deps f (.inr (deps p))
              ⟨p :: st.processed, st.copies ++ [p]⟩ from rfl] at h
      split at h
      · cases h
        exact ⟨[], by simp, by simp, fun hn => hn⟩
      · rename_i hmem
        obtain ⟨new, hc, hp, hn⟩ := ih _ _ _ h
        refine ⟨p :: new, ?_, ?_, ?_⟩
        · rw [hc]; simp
        · rw [hp]; simp
        · intro hnd
          exact hn (by simp [hmem, hnd])
    | .inr [] =>
      cases h
      exact ⟨[], by simp, by simp, fun hn => hn⟩
    | .inr (none :: ds) =>
      exact ih _ _ _ h
    | .inr (some t :: ds) =>
      rw [show bundle_dylib_and_deps deps (f + 1) (.inr (some t :: ds)) st
          = (match bundle_dylib_and_deps deps f (.inl t) st with
             | none => none
             | some st2 => bundle_dylib_and_deps deps f (.inr ds) st2) from rfl] at h
      cases hc : bundle_dylib_and_deps deps f (.inl t) st with
      | none => rw [hc] at h; cases h
      | some st2 =>
        rw [hc] at h
        obtain ⟨n1, hc1, hp1, hn1⟩ := ih _ _ _ hc
        obtain ⟨n2, hc2, hp2, hn2⟩ := ih _ _ _ h
        refine ⟨n1 ++ n2, ?_, ?_, fun hnd => hn2 (hn1 hnd)⟩
        · rw [hc2, hc1]; simp
        · rw [hp2, hp1]; simp

theorem bundle_dylib_and_deps_total (deps : Nat → List (Option Nat)) (n D : Nat)
    (hclosed : ∀ q t, q < n → some t ∈ deps q → t < n)
    (hlen : ∀ q, q < n → (deps q).length ≤ D) :
    ∀ f : Nat,
      (∀ p st, p < n → missingCount n st * (D + 1) + 1 < f →
        (bundle_dylib_and_deps deps f (.inl p) st).isSome = true)
      ∧ (∀ ds st, (∀ t, some t ∈ ds → t < n) →
          missingCount n st * (D + 1) + ds.length + 1 < f →
          (bundle_dylib_and_deps deps f (.inr ds) st).isSome = true) := by
  intro f
  induction f with
  | zero => exact ⟨fun p st _ hb => absurd hb (by omega), fun ds st _ hb => absurd hb (by omega)⟩
  | succ f ih =>
    obtain ⟨ih1, ih2⟩ := ih
    constructor
    · intro p st hp hb
      by_cases hmem : p ∈ st.processed
      · rw [show bundle_dylib_and_deps deps (f + 1) (.inl p) st
            = if p ∈ st.processed then some st
              else bundle_dylib_and_deps deps f (.inr (deps p))
                ⟨p :: st.processed, st.copies ++ [p]⟩ from rfl]
        simp [hmem]
      · rw [show bundle_dylib_and_deps deps (f + 1) (.inl p) st
            = if p ∈ st.processed then some st
              else bundle_dylib_and_deps deps f (.inr (deps p))
                ⟨p :: st.processed, st.copies ++ [p]⟩ from rfl]
        simp only [hmem, if_false]
        refine ih2 (deps p) _ (fun t ht => hclosed p t hp ht) ?_
        have hlt : missingCount n ⟨p :: st.processed, st.copies ++ [p]⟩ < missingCount n st :=
          missingCount_insert_lt n p st _ hp hmem
        have hdl : (deps p).length ≤ D := hlen p hp
        have h1 : missingCount n ⟨p :: st.processed, st.copies ++ [p]⟩ * (D + 1)
            ≤ (missingCount n st - 1) * (D + 1) :=
          Nat.mul_le_mul_right _ (by omega)
        have h2 : (missingCount n st - 1) * (D + 1) + (D + 1) = missingCount n st * (D + 1) := by
          have : missingCount n st - 1 + 1 = missingCount n st := by omega
          rw [← Nat.succ_mul, Nat.succ_eq_add_one, this]
        omega
    · intro ds st hds hb
      match ds with
      | [] =>
        rw [show bundle_dylib_and_deps deps (f + 1) (.inr []) st = some st from rfl]
        rfl
      | none :: ds' =>
        rw [show bundle_dylib_and_deps deps (f + 1) (.inr (none :: ds')) st
            = bundle_dylib_and_deps deps f (.inr ds') st from rfl]
        refine ih2 ds' st (fun t ht => hds t (List.mem_cons_of_mem _ ht)) ?_
        simp only [List.length_cons] at hb
        omega
      | some t :: ds' =>
        have ht : t < n := hds t (List.mem_cons_self _ _)
        have hcall : (bundle_dylib_and_deps deps f (.inl t) st).isSome = true := by
          refine ih1 t st ht ?_
          simp only [List.length_cons] at hb
          omega
        rw [show bundle_dylib_and_deps deps (f + 1) (.inr (some t :: ds')) st
            = (match bundle_dylib_and_deps deps f (.inl t) st with
               | none => none
               | some st2 => bundle_dylib_and_deps deps f (.inr ds') st2) from rfl]
        cases hc : bundle_dylib_and_deps deps f (.inl t) st with
        | none => rw [hc] at hcall; cases hcall
        | some st2 =>
          refine ih2 ds' st2 (fun t' ht' => hds t' (List.mem_cons_of_mem _ ht')) ?_
          have hmono : missingCount n st2 ≤ missingCount n st :=
            missingCount_le_of_processed_le n st st2
              (bundle_dylib_and_deps_processed_mono deps f _ st st2 hc)
          have : missingCount n st2 * (D + 1) ≤ missingCount n st * (D + 1) :=
            Nat.mul_le_mul_right _ hmono
          simp only [List.length_cons] at hb
          omega

end DylibLemmas

/-- C4: for every dependency graph over libraries `0..n-1` (cycles and
diamonds included), `bundle_dylib_and_deps` terminates — the fuel
`n * (D + 1) + 2` always suffices, where `D` bounds the dependency list
lengths (conjunct 1); starting from an empty processed set, the copy log is
duplicate-free and coincides with the processed set, so each distinct
library is copied into the Frameworks directory exactly once (conjunct 2); a
library not yet processed is inserted into the processed set and copied
before its own dependencies are examined — mark-before-recurse (conjunct 3);
and a library encountered a second time is a no-op (conjunct 4). -/
theorem bundle_dylib_and_deps_cycle_safe :
    (∀ (deps : Nat → List (Option Nat)) (n D p : Nat),
      (∀ q t, q < n → some t ∈ deps q → t < n) →
      (∀ q, q < n → (deps q).length ≤ D) →
      p < n →
      (bundle_dylib_and_deps deps (n * (D + 1) + 2) (.inl p) ⟨[], []⟩).isSome = true)
    ∧ (∀ (deps : Nat → List (Option Nat)) (f p : Nat) (st' : DylibState),
      bundle_dylib_and_deps deps f (.inl p) ⟨[], []⟩ = some st' →
      st'.copies.Nodup ∧ st'.processed = st'.copies.reverse)
    ∧ (∀ (deps : Nat → List (Option Nat)) (f p : Nat) (st : DylibState),
      p ∉ st.processed →
      bundle_dylib_and_deps deps (f + 1) (.inl p) st
        = bundle_dylib_and_deps deps f (.inr (deps p)) ⟨p :: st.processed, st.copies ++ [p]⟩)
    ∧ (∀ (deps : Nat → List (Option Nat)) (f p : Nat) (st : DylibState),
      p ∈ st.processed → bundle_dylib_and_deps deps (f + 1) (.inl p) st = some st) := by
  refine ⟨?_, ?_, ?_, ?_⟩
  · intro deps n D p hclosed hlen hp
    refine (bundle_dylib_and_deps_total deps n D hclosed hlen (n * (D + 1) + 2)).1 p _ hp ?_
    have hm : missingCount n ⟨[], []⟩ = n := by
      unfold missingCount
      simp
    rw [hm]
    omega
  · intro deps f p st' h
    obtain ⟨new, hc, hpr, hn⟩ := bundle_dylib_and_deps_copies_inv deps f _ _ _ h
    simp only [List.append_nil, List.nil_append] at hc hpr
    subst hc
    have hnd : st'.processed.Nodup := hn (by simp)
    rw [hpr] at hnd
    refine ⟨by simpa using List.nodup_reverse.mp hnd, by rw [hpr]⟩
  · intro deps f p st hmem
    simp [bundle_dylib_and_deps, hmem]
  · intro deps f p st hmem
    simp [bundle_dylib_and_deps, hmem]

/-- Witness for C4 at the spec's cyclic scenario A→B→A (A = 0, B = 1):
termination succeeds with the general fuel bound, the run copies A then B
exactly once each, the processed set equals the copy log, and revisiting B
afterwards is a no-op. -/
theorem bundle_dylib_and_deps_cycle_safe_witness :
    (bundle_dylib_and_deps cycleDeps (2 * (1 + 1) + 2) (.inl 0) ⟨[], []⟩).isSome = true
    ∧ bundle_dylib_and_deps cycleDeps 6 (.inl 0) ⟨[], []⟩ = some ⟨[1, 0], [0, 1]⟩
    ∧ (([0, 1] : List Nat).Nodup ∧ ([1, 0] : List Nat) = ([0, 1] : List Nat).reverse)
    ∧ bundle_dylib_and_deps cycleDeps 7 (.inl 1) ⟨[1, 0], [0, 1]⟩ = some ⟨[1, 0], [0, 1]⟩ := by
  refine ⟨?_, by decide, ?_, ?_⟩
  · refine bundle_dylib_and_deps_cycle_safe.1 cycleDeps 2 1 0 ?_ ?_ (by omega)
    · intro q t hq ht
      interval_cases q <;> simp [cycleDeps] at ht <;> omega
    · intro q hq
      interval_cases q <;> simp [cycleDeps]
  · exact bundle_dylib_and_deps_cycle_safe.2.1 cycleDeps 6 0 ⟨[1, 0], [0, 1]⟩ (by decide)
  · exact bundle_dylib_and_deps_cycle_safe.2.2.2 cycleDeps 6 1 ⟨[1, 0], [0, 1]⟩ (by decide)

/-- C5 (code-bug evidence): an unresolvable non-system dependency is a hard
error only at depth 0 — for a binary whose own reference fails to resolve the
run errors (conjunct 1) — but at depth 1 of the transitive closure the same
failure is silently skipped by the `if let Ok(dep_path)` in
`bundle_dylib_and_deps` (dylib.rs:237): with library 0 resolvable and its own
dependency unresolvable, the run reports success, bundling only library 0 and
never surfacing the broken dependency (conjunct 2). -/
theorem bundle_binary_dylibs_skips_deep_resolve_failure :
    bundle_binary_dylibs deepBrokenDeps 6 [none] ⟨[], []⟩ = .resolveError
    ∧ bundle_binary_dylibs deepBrokenDeps 6 [some 0] ⟨[], []⟩ = .done ⟨[0], [0]⟩ :=
  ⟨by decide, by decide⟩

section OrchestratorLemmas

variable (producer : PackageType → Except BError (List String))
variable (stat : String → Except BError Nat)
variable (digest : String → Except BError String)

theorem bundle_type_step_ok_inv (t : PackageType) (a : BundledArtifact)
    (h : bundle_type_step producer stat digest t = .ok a) :
    a.package_type = t
    ∧ producer t = .ok a.paths
    ∧ sumSizes stat a.paths = .ok a.size
    ∧ ∃ first rest, a.paths = first :: rest ∧ digest first = .ok a.checksum := by
  unfold bundle_type_step at h
  cases hp : producer t with
  | error e => rw [hp] at h; cases h
  | ok paths =>
    rw [hp] at h
    dsimp only at h
    cases hs : sumSizes stat paths with
    | error e => rw [hs] at h; cases h
    | ok size =>
      rw [hs] at h
      dsimp only at h
      match paths, hp, hs, h with
      | [], hp, hs, h => cases h
      | first :: rest, hp, hs, h =>
        dsimp only at h
        cases hd : digest first with
        | error e => rw [hd] at h; cases h
        | ok checksum =>
          rw [hd] at h
          dsimp only at h
          cases h
          exact ⟨rfl, rfl, hs, first, rest, rfl, hd⟩

theorem sumSizes_ok_stat :
    ∀ (paths : List String) (sz : Nat), sumSizes stat paths = .ok sz →
      ∀ p ∈ paths, ∃ m, stat p = .ok m := by
  intro paths
  induction paths with
  | nil => intro sz _ p hp; simp at hp
  | cons q qs ih =>
    intro sz h p hp
    unfold sumSizes at h
    cases hq : stat q with
    | error e => rw [hq] at h; cases h
    | ok m =>
      rw [hq] at h
      cases hs : sumSizes stat qs with
      | error e => rw [hs] at h; cases h
      | ok rest =>
        rcases List.mem_cons.mp hp with rfl | hp'
        · exact ⟨m, hq⟩
        · exact ih rest hs p hp'

theorem bundle_types_ok_inv :
    ∀ (types : List PackageType) (arts : List BundledArtifact),
      bundle_types producer stat digest types = .ok arts →
      arts.map BundledArtifact.package_type = types
      ∧ ∀ a ∈ arts, bundle_type_step producer stat digest a.package_type = .ok a := by
  intro types
  induction types with
  | nil =>
    intro arts h
    cases h
    exact ⟨rfl, by simp⟩
  | cons t ts ih =>
    intro arts h
    unfold bundle_types at h
    cases hstep : bundle_type_step producer stat digest t with
    | error e => rw [hstep] at h; cases h
    | ok a =>
      rw [hstep] at h
      cases hrest : bundle_types producer stat digest ts with
      | error e => rw [hrest] at h; cases h
      | ok arts' =>
        rw [hrest] at h
        cases h
        obtain ⟨hmap, hall⟩ := ih arts' hrest
        have hpt : a.package_type = t :=
          (bundle_type_step_ok_inv producer stat digest t a hstep).1
        refine ⟨by simp [hmap, hpt], ?_⟩
        intro b hb
        rcases List.mem_cons.mp hb with rfl | hb'
        · rw [hpt]; exact hstep
        · exact hall b hb'

theorem bundle_types_append_error
    (e : BError) :
    ∀ (pre : List PackageType) (rest : List PackageType),
      (∀ s ∈ pre, isOkE (bundle_type_step producer stat digest s) = true) →
      bundle_types producer stat digest rest = .error e →
      bundle_types producer stat digest (pre ++ rest) = .error e := by
  intro pre
  induction pre with
  | nil => intro rest _ h; exact h
  | cons s pre' ih =>
    intro rest hpre h
    have hs : isOkE (bundle_type_step producer stat digest s) = true :=
      hpre s (List.mem_cons_self s pre')
    cases hstep : bundle_type_step producer stat digest s with
    | error e' => rw [hstep] at hs; cases hs
    | ok a =>
      show bundle_types producer stat digest (s :: (pre' ++ rest)) = .error e
      unfold bundle_types
      rw [hstep]
      rw [ih rest (fun q hq => hpre q (List.mem_cons_of_mem s hq)) h]

end OrchestratorLemmas

/-- C6: `bundle_types` fails fast.  Conjunct 1: if every type before `t`
builds successfully and the producer invoked for `t` returns an error, the
whole call returns exactly that error (so no artifact list at all).
Conjunct 2: whenever the call returns `Ok`, the artifact list has exactly one
artifact per requested type, in order, and every requested type's producer
succeeded — an `Ok` result never silently omits a failed type. -/
theorem bundle_types_fail_fast (producer : PackageType → Except BError (List String))
    (stat : String → Except BError Nat) (digest : String → Except BError String) :
    (∀ (pre post : List PackageType) (t : PackageType) (e : BError),
      (∀ s ∈ pre, isOkE (bundle_type_step producer stat digest s) = true) →
      producer t = .error e →
      bundle_types producer stat digest (pre ++ t :: post) = .error e)
    ∧ (∀ (types : List PackageType) (arts : List BundledArtifact),
      bundle_types producer stat digest types = .ok arts →
      arts.map BundledArtifact.package_type = types
        ∧ ∀ t ∈ types, isOkE (producer t) = true) := by
  constructor
  · intro pre post t e hpre hprod
    refine bundle_types_append_error producer stat digest e pre (t :: post) hpre ?_
    show bundle_types producer stat digest (t :: post) = .error e
    unfold bundle_types bundle_type_step
    rw [hprod]
  · intro types arts h
    obtain ⟨hmap, hall⟩ := bundle_types_ok_inv producer stat digest types arts h
    refine ⟨hmap, ?_⟩
    intro t ht
    rw [← hmap] at ht
    obtain ⟨a, ha, hpt⟩ := List.mem_map.mp ht
    have := (bundle_type_step_ok_inv producer stat digest a.package_type a (hall a ha)).2.1
    rw [hpt] at this
    rw [this]
    rfl

/-- Witness for C6: with the sample environment, requesting [Deb, Rpm, Dmg]
aborts with the Rpm producer's own error (Deb built fine, Dmg never ran), and
a successful run over [Deb] lists exactly one Deb artifact. -/
theorem bundle_types_fail_fast_witness :
    bundle_types sampleProducer sampleStat sampleDigest
        [.deb, .rpm, .dmg] = .error (.genericError "rpmbuild failed")
    ∧ ([⟨.deb, ["out.deb"], 2048, "abc123"⟩] : List BundledArtifact).map
          BundledArtifact.package_type = [PackageType.deb]
      ∧ ∀ t ∈ [PackageType.deb], isOkE (sampleProducer t) = true :=
  ⟨(bundle_types_fail_fast sampleProducer sampleStat sampleDigest).1
      [.deb] [.dmg] .rpm (.genericError "rpmbuild failed") (by decide) (by decide),
   (bundle_types_fail_fast sampleProducer sampleStat sampleDigest).2
      [.deb] [⟨.deb, ["out.deb"], 2048, "abc123"⟩] (by decide)⟩

/-- C7: a producer that reports success with an empty path list makes
`bundle_types` fail with the distinct `GenericError` whose message names the
type and says "bundler bug" — not success, not a silent skip, and not one of
the propagated user-facing failures. -/
theorem bundle_types_empty_paths_bundler_bug
    (producer : PackageType → Except BError (List String))
    (stat : String → Except BError Nat) (digest : String → Except BError String)
    (pre post : List PackageType) (t : PackageType)
    (hpre : ∀ s ∈ pre, isOkE (bundle_type_step producer stat digest s) = true)
    (h : producer t = .ok []) :
    bundle_types producer stat digest (pre ++ t :: post)
      = .error (.genericError (bugMessage t))
    ∧ strContains (bugMessage t) "bundler bug" = true := by
  constructor
  · refine bundle_types_append_error producer stat digest _ pre (t :: post) hpre ?_
    show bundle_types producer stat digest (t :: post) = _
    unfold bundle_types bundle_type_step
    rw [h]
    rfl
  · cases t <;> decide

/-- Witness for C7: in the sample environment the AppImage producer returns
`Ok(vec![])`; requesting [Deb, AppImage] yields the "bundler bug" error. -/
theorem bundle_types_empty_paths_bundler_bug_witness :
    bundle_types sampleProducer sampleStat sampleDigest [.deb, .appImage]
      = .error (.genericError (bugMessage .appImage))
    ∧ strContains (bugMessage .appImage) "bundler bug" = true :=
  bundle_types_empty_paths_bundler_bug sampleProducer sampleStat sampleDigest
    [.deb] [] .appImage (by decide) (by decide)

/-- C8: whenever `bundle_types` returns `Ok(artifacts)`, every returned
artifact has a nonempty path list, every one of its paths was successfully
stat-ed (it existed on disk when its metadata was read — a failing stat would
have aborted the run), its size is the sum of the byte sizes of all its
paths, and its checksum is the digest computed from its first path. -/
theorem bundle_types_ok_artifact_invariants
    (producer : PackageType → Except BError (List String))
    (stat : String → Except BError Nat) (digest : String → Except BError String)
    (types : List PackageType) (arts : List BundledArtifact)
    (h : bundle_types producer stat digest types = .ok arts) :
    ∀ a ∈ arts,
      (∀ p ∈ a.paths, ∃ m, stat p = .ok m)
      ∧ sumSizes stat a.paths = .ok a.size
      ∧ ∃ first rest, a.paths = first :: rest ∧ digest first = .ok a.checksum := by
  intro a ha
  have hstep := (bundle_types_ok_inv producer stat digest types arts h).2 a ha
  obtain ⟨_, _, hsum, hck⟩ := bundle_type_step_ok_inv producer stat digest _ a hstep
  exact ⟨sumSizes_ok_stat stat a.paths a.size hsum, hsum, hck⟩

section RelocationLemmas

theorem dirLeads_self_append : ∀ f r : List String, dirLeads f (f ++ r) = true := by
  intro f
  induction f with
  | nil => intro r; rfl
  | cons d ds ih => intro r; simp [dirLeads, ih r]

theorem dirLeads_append_cases :
    ∀ t f r : List String, dirLeads t (f ++ r) = true →
      dirLeads t f = true ∨ dirLeads f t = true := by
  intro t
  induction t with
  | nil => intro f r _; exact Or.inl rfl
  | cons d ds ih =>
    intro f r h
    cases f with
    | nil => exact Or.inr rfl
    | cons x xs =>
      rw [show (x :: xs) ++ r = x :: (xs ++ r) from rfl] at h
      rw [show dirLeads (d :: ds) (x :: (xs ++ r))
          = (decide (d = x) && dirLeads ds (xs ++ r)) from rfl, Bool.and_eq_true] at h
      obtain ⟨hdx, h2⟩ := h
      have hdx' : d = x := of_decide_eq_true hdx
      subst hdx'
      rcases ih xs r h2 with hc | hc
      · left
        rw [show dirLeads (d :: ds) (d :: xs) = (decide (d = d) && dirLeads ds xs) from rfl]
        simp [hc]
      · right
        rw [show dirLeads (d :: xs) (d :: ds) = (decide (d = d) && dirLeads xs ds) from rfl]
        simp [hc]

theorem dirLeads_comparable :
    ∀ a b p : List String, dirLeads a p = true → dirLeads b p = true →
      dirLeads a b = true ∨ dirLeads b a = true := by
  intro a
  induction a with
  | nil => intro b p _ _; exact Or.inl rfl
  | cons d ds ih =>
    intro b p h1 h2
    cases b with
    | nil => exact Or.inr rfl
    | cons x xs =>
      cases p with
      | nil => simp [dirLeads] at h1
      | cons y ys =>
        rw [show dirLeads (d :: ds) (y :: ys) = (decide (d = y) && dirLeads ds ys) from rfl,
          Bool.and_eq_true] at h1
        rw [show dirLeads (x :: xs) (y :: ys) = (decide (x = y) && dirLeads xs ys) from rfl,
          Bool.and_eq_true] at h2
        obtain ⟨hdy, h1'⟩ := h1
        obtain ⟨hxy, h2'⟩ := h2
        have : d = y := of_decide_eq_true hdy
        subst this
        have : x = d := of_decide_eq_true hxy
        subst this
        rcases ih xs ys h1' h2' with hc | hc
        · left
          rw [show dirLeads (x :: ds) (x :: xs) = (decide (x = x) && dirLeads ds xs) from rfl]
          simp [hc]
        · right
          rw [show dirLeads (x :: xs) (x :: ds) = (decide (x = x) && dirLeads xs ds) from rfl]
          simp [hc]

theorem dirOnDisk_removeDirAll (d : List String) (fs : FileSys) :
    dirOnDisk (removeDirAll d fs) d = false := by
  rw [dirOnDisk, List.any_eq_false]
  intro e he
  have hp := List.of_mem_filter he
  rw [Bool.not_eq_true'] at hp
  simp [hp]

theorem renameReplace_spec (temp final : List String) (fs fs' : FileSys)
    (hne1 : dirLeads temp final = false) (hne2 : dirLeads final temp = false)
    (h : renameReplace temp final fs = some fs') :
    dirOnDisk fs' temp = false
    ∧ fs'.filter (fun e => dirLeads final e.1)
        = (fs.filter (fun e => dirLeads temp e.1)).map
            (fun e => (relocatePath temp final e.1, e.2)) := by
  unfold renameReplace at h
  split at h
  · cases h
    constructor
    · rw [dirOnDisk, List.any_eq_false]
      intro e he
      rcases List.mem_append.mp he with hk | hm
      · have hp := List.of_mem_filter hk
        rw [Bool.and_eq_true, Bool.not_eq_true'] at hp
        simp [hp.1]
      · obtain ⟨e0, _, rfl⟩ := List.mem_map.mp hm
        intro habs
        rcases dirLeads_append_cases temp final _ habs with hc | hc
        · rw [hc] at hne1; cases hne1
        · rw [hc] at hne2; cases hne2
    · rw [List.filter_append]
      have hkeep : ((fs.filter fun e => !(dirLeads temp e.1) && !(dirLeads final e.1)).filter
          (fun e => dirLeads final e.1)) = [] := by
        rw [List.filter_eq_nil_iff]
        intro e he
        have hp := List.of_mem_filter he
        rw [Bool.and_eq_true, Bool.not_eq_true', Bool.not_eq_true'] at hp
        simp [hp.2]
      have hmv : (((fs.filter fun e => dirLeads temp e.1).map
            (fun e => (relocatePath temp final e.1, e.2))).filter
          (fun e => dirLeads final e.1))
          = (fs.filter fun e => dirLeads temp e.1).map
              (fun e => (relocatePath temp final e.1, e.2)) := by
        rw [List.filter_eq_self]
        intro a ha
        obtain ⟨e0, _, rfl⟩ := List.mem_map.mp ha
        exact dirLeads_self_append final _
      rw [hkeep, hmv, List.nil_append]
  · cases h

end RelocationLemmas

/-- C9: whenever `move_artifacts_to_final` succeeds, the temporary bundle
directory no longer exists at its source location and the final bundle
location holds exactly the relocated temporary files with byte-identical
contents (any stale destination content is gone); the artifacts were
re-verified before the move; and on the atomic-replace platform the whole
move is the verification gate followed by a single replacing rename, while
the windows branch removes a stale destination before its non-replacing
rename.  The temporary and final bundle directories are assumed not nested
in one another, as in the source layout. -/
theorem move_artifacts_to_final_spec
    (atomicReplace : Bool) (artifacts : List (List String))
    (temp final : List String) (fs fs' : FileSys)
    (hne1 : dirLeads temp final = false) (hne2 : dirLeads final temp = false)
    (h : move_artifacts_to_final atomicReplace artifacts temp final fs = some fs') :
    dirOnDisk fs' temp = false
    ∧ fs'.filter (fun e => dirLeads final e.1)
        = (fs.filter (fun e => dirLeads temp e.1)).map
            (fun e => (relocatePath temp final e.1, e.2))
    ∧ verify_artifacts artifacts fs = true
    ∧ move_artifacts_to_final true artifacts temp final fs
        = renameReplace temp final fs := by
  unfold move_artifacts_to_final at h
  cases hv : verify_artifacts artifacts fs with
  | false => rw [hv] at h; simp at h
  | true =>
    rw [hv] at h
    simp only [Bool.not_true, Bool.false_eq_true, if_false] at h
    have hmech : move_artifacts_to_final true artifacts temp final fs
        = renameReplace temp final fs := by
      unfold move_artifacts_to_final
      rw [hv]
      simp
    cases atomicReplace with
    | true =>
      rw [if_pos rfl] at h
      obtain ⟨ha, hb⟩ := renameReplace_spec temp final fs fs' hne1 hne2 h
      exact ⟨ha, hb, rfl, hmech⟩
    | false =>
      rw [if_neg (by simp)] at h
      cases hfin : dirOnDisk fs final with
      | false =>
        rw [hfin] at h
        simp only [Bool.false_eq_true, if_false] at h
        unfold renameNoReplace at h
        rw [hfin] at h
        simp only [Bool.false_eq_true, if_false] at h
        obtain ⟨ha, hb⟩ := renameReplace_spec temp final fs fs' hne1 hne2 h
        exact ⟨ha, hb, rfl, hmech⟩
      | true =>
        rw [hfin] at h
        simp only [if_true] at h
        unfold renameNoReplace at h
        rw [dirOnDisk_removeDirAll] at h
        simp only [Bool.false_eq_true, if_false] at h
        obtain ⟨ha, hb⟩ :=
          renameReplace_spec temp final (removeDirAll final fs) fs' hne1 hne2 h
        refine ⟨ha, ?_, rfl, hmech⟩
        rw [hb]
        unfold removeDirAll
        rw [List.filter_filter]
        have heq : (fs.filter fun e => dirLeads temp e.1 && !(dirLeads final e.1))
            = fs.filter fun e => dirLeads temp e.1 := by
          apply List.filter_congr
          intro e _
          cases ht : dirLeads temp e.1 with
          | false => rfl
          | true =>
            cases hf : dirLeads final e.1 with
            | false => rfl
            | true =>
              rcases dirLeads_comparable temp final e.1 ht hf with hc | hc
              · rw [hc] at hne1; cases hne1
              · rw [hc] at hne2; cases hne2
        rw [heq]
/-- Witness for C9: moving the one-artifact temp bundle directory "t" onto a
final directory "f" that holds a stale artifact removes the source, replaces
the stale content and preserves the bytes. -/
theorem move_artifacts_to_final_spec_witness :
    move_artifacts_to_final true [["t", "a.deb"]] ["t"] ["f"]
        [(["t", "a.deb"], [1, 2]), (["f", "old.deb"], [9]), (["x", "b"], [7])]
      = some [(["x", "b"], [7]), (["f", "a.deb"], [1, 2])]
    ∧ (dirOnDisk [(["x", "b"], [7]), (["f", "a.deb"], [1, 2])] ["t"] = false
      ∧ List.filter (fun e => dirLeads ["f"] e.1)
            [(["x", "b"], [7]), (["f", "a.deb"], [1, 2])]
          = List.map (fun e => (relocatePath ["t"] ["f"] e.1, e.2))
              (List.filter (fun e => dirLeads ["t"] e.1)
                [(["t", "a.deb"], [1, 2]), (["f", "old.deb"], [9]), (["x", "b"], [7])])
      ∧ verify_artifacts [["t", "a.deb"]]
            [(["t", "a.deb"], [1, 2]), (["f", "old.deb"], [9]), (["x", "b"], [7])] = true
      ∧ move_artifacts_to_final true [["t", "a.deb"]] ["t"] ["f"]
            [(["t", "a.deb"], [1, 2]), (["f", "old.deb"], [9]), (["x", "b"], [7])]
          = renameReplace ["t"] ["f"]
              [(["t", "a.deb"], [1, 2]), (["f", "old.deb"], [9]), (["x", "b"], [7])]) :=
  ⟨by decide,
   move_artifacts_to_final_spec true [["t", "a.deb"]] ["t"] ["f"]
     [(["t", "a.deb"], [1, 2]), (["f", "old.deb"], [9]), (["x", "b"], [7])]
     [(["x", "b"], [7]), (["f", "a.deb"], [1, 2])]
     (by decide) (by decide) (by decide)⟩

theorem drainStream_of_closes :
    ∀ (fuel : Nat) (ls acc : List String), ls.length < fuel →
      ∃ out, drainStream fuel ls true acc = some out := by
  intro fuel
  induction fuel with
  | zero => intro ls acc h; exact absurd h (by omega)
  | succ f ih =>
    intro ls acc h
    cases ls with
    | nil => exact ⟨acc.reverse, rfl⟩
    | cons l ls' =>
      refine ih ls' (l :: acc) ?_
      simp at h
      omega

theorem drainStream_never_closes :
    ∀ (fuel : Nat) (ls acc : List String), drainStream fuel ls false acc = none := by
  intro fuel
  induction fuel with
  | zero => intro ls acc; rfl
  | succ f ih =>
    intro ls acc
    cases ls with
    | nil => simp [drainStream]
    | cons l ls' => exact ih ls' (l :: acc)

/-- C10 (code-bug evidence): conjunct 1 — once both output streams have
closed, a run whose 20-minute wait times out makes `run_container` kill the
child, wait the bounded 10-second grace period and return the distinct
timed-out error, never a success and never the generic-failure shape
(conjunct 2: the timed-out result equals no `completed` result).  Conjunct 3
— the stream-drain phase is outside the timeout: for a child that keeps its
pipes open and never closes them, the call has not returned at any bound
whatsoever, so "the call never hangs indefinitely waiting on an
uncooperative child" fails on the code as written (the timeout clock only
starts after both pipes reach EOF). -/
theorem run_container_timeout_behaviour :
    (∀ outLines errLines : List String,
      run_container (outLines.length + errLines.length + 1)
          ⟨⟨outLines, true⟩, ⟨errLines, true⟩, none⟩
        = some (.timedOut true GRACE_WAIT_SECS timeoutMessage))
    ∧ (∀ (code : Int) (lines : List String),
        (RunContainerResult.timedOut true GRACE_WAIT_SECS timeoutMessage)
          ≠ .completed code lines)
    ∧ (∀ fuel : Nat,
        run_container fuel ⟨⟨[], false⟩, ⟨[], false⟩, some 0⟩ = none)
    ∧ run_container 5 ⟨⟨["building"], true⟩, ⟨["err"], true⟩, none⟩
        = some (.timedOut true GRACE_WAIT_SECS timeoutMessage) := by
  refine ⟨?_, ?_, ?_, by decide⟩
  · intro outLines errLines
    obtain ⟨o1, h1⟩ :=
      drainStream_of_closes (outLines.length + errLines.length + 1) outLines [] (by omega)
    obtain ⟨o2, h2⟩ :=
      drainStream_of_closes (outLines.length + errLines.length + 1) errLines [] (by omega)
    unfold run_container
    rw [h1, h2]
  · intro code lines h
    cases h
  · intro fuel
    unfold run_container
    rw [drainStream_never_closes]

/-- Witness for C8: the successful [Deb] run's artifact satisfies the
invariants. -/
theorem bundle_types_ok_artifact_invariants_witness :
    bundle_types sampleProducer sampleStat sampleDigest [.deb]
        = .ok [⟨.deb, ["out.deb"], 2048, "abc123"⟩]
    ∧ ∀ a ∈ ([⟨.deb, ["out.deb"], 2048, "abc123"⟩] : List BundledArtifact),
        (∀ p ∈ a.paths, ∃ m, sampleStat p = .ok m)
        ∧ sumSizes sampleStat a.paths = .ok a.size
        ∧ ∃ first rest, a.paths = first :: rest ∧ sampleDigest first = .ok a.checksum :=
  ⟨by decide,
   bundle_types_ok_artifact_invariants sampleProducer sampleStat sampleDigest
     [.deb] [⟨.deb, ["out.deb"], 2048, "abc123"⟩] (by decide)⟩

/-- C1 counterexample: the claim asserts the stderr scan matches the known
out-of-memory phrase markers case-insensitively.  For the marker
"Cannot allocate memory" this fails: an all-uppercase stderr line contains the
marker case-insensitively, the runtime flag is false and the exit code is 137,
yet `is_oom_failure` classifies the failure as NOT OOM. -/
theorem is_oom_failure_not_case_insensitive :
    containsCaseInsensitive "CANNOT ALLOCATE MEMORY" "Cannot allocate memory" = true ∧
    is_oom_failure 137 ["CANNOT ALLOCATE MEMORY"] false = false :=
  ⟨by decide, by decide⟩

/-- C1 (amended): `is_oom_failure` decides in strict priority order with the
source's matching discipline: it classifies OOM exactly when the joined stderr
contains one of the exact-case markers "OOMKilled", "out of memory",
"Out of memory", "OutOfMemoryError", "Cannot allocate memory" or, matched
case-insensitively, the substring "oom" (priority 1), or otherwise when the
runtime's OOMKilled flag for the container is true (priority 2); in every
other situation — in particular for exit code 137 with a non-OOM kill marker
in stderr, and for exit code 137 with empty stderr and a false runtime flag —
it classifies NOT OOM.  Exit code 137 with stderr containing
"Cannot allocate memory" (exact case) is classified OOM. -/
theorem is_oom_failure_priority_order (ec : Int) (lines : List String) (flag : Bool) :
    is_oom_failure ec lines flag = (oomStderrMarker (joinLines lines) || flag) ∧
    is_oom_failure 137 ["Cannot allocate memory"] false = true ∧
    is_oom_failure 137 ["terminated by signal: user requested shutdown"] false = false ∧
    is_oom_failure 137 [] false = false := by
  refine ⟨?_, by decide, by decide, by decide⟩
  unfold is_oom_failure
  rcases h : oomStderrMarker (joinLines lines) <;> rcases flag <;> simp [h]

end Bundler
